import Mathlib

/-!
Verification of the influxdb-client-go write pipeline and query decoder.

Shallow embedding of the Go sources:
  * `write.go` / `writeService.go` — bounded retry queue, batch classification,
    `handleWrite` loop, blocking `WriteRecord`;
  * `point.go` — line-protocol serialization (`ToLineProtocolBuffer`,
    `escapeKey`, `escapeValue`, `convertField`);
  * `client.go` / `options.go` — `DefaultOptions`;
  * `query.go` — annotated-CSV decoder (`QueryTableResult.Next`, `toValue`,
    `stringTernary`).

Machine integers are modelled as `Nat`/`Int` (all claim-relevant arithmetic is
far from the 64-bit boundaries); Go strings as `String`; external collaborators
(HTTP transport, the standard-library parsers used by `toValue`, float
formatting) are parameters of the embedding.
-/

namespace InfluxGo

/-! ## Bounded retry queue (`write.go`, `queue`)

Go's `queue` wraps a `container/list.List` of `*batch` pointers together with a
`limit`.  The embedding is polymorphic in the element type: the queue code
never inspects its elements. The list front is the head of the Lean list. -/

structure GoQueue (α : Type) where
  list : List α
  limit : Nat
deriving Repr, DecidableEq

/-- `newQueue(limit)` — empty list with the given limit. -/
def newQueue (α : Type) (limit : Nat) : GoQueue α := ⟨[], limit⟩

/-- `queue.pop` — removes and returns the front element, `nil` when empty. -/
def GoQueue.pop {α : Type} (q : GoQueue α) : Option α × GoQueue α :=
  match q.list with
  | [] => (none, q)
  | x :: xs => (some x, ⟨xs, q.limit⟩)

/-- `queue.push` — when the length equals the limit, pops the front first and
reports the overwrite; then appends at the back. -/
def GoQueue.push {α : Type} (q : GoQueue α) (b : α) : GoQueue α × Bool :=
  if q.list.length = q.limit then
    (⟨(q.pop).2.list ++ [b], q.limit⟩, true)
  else
    (⟨q.list ++ [b], q.limit⟩, false)

/-- `queue.first` — front element without removal (`nil` deref when empty is
modelled by `Option`). -/
def GoQueue.firstElem {α : Type} (q : GoQueue α) : Option α := q.list.head?

/-- `queue.isEmpty` — `list.Len() == 0`. -/
def GoQueue.isEmpty {α : Type} (q : GoQueue α) : Bool := q.list.length = 0

/-- Iterated `push`, collecting the boolean returned by each call. -/
def pushAll {α : Type} (q : GoQueue α) : List α → GoQueue α × List Bool
  | [] => (q, [])
  | x :: xs =>
    let (q', b) := q.push x
    let (q'', bs) := pushAll q' xs
    (q'', b :: bs)

/-- Retry-queue capacity computed by `newWriteService` (`writeService.go`):
`retryBufferLimit := RetryBufferLimit / BatchSize; if retryBufferLimit == 0 {
retryBufferLimit = 1 }`. -/
def writeServiceRetryLimit (retryBufferLimit batchSize : Nat) : Nat :=
  let r := retryBufferLimit / batchSize
  if r = 0 then 1 else r

theorem writeServiceRetryLimit_eq_max (retryBufferLimit batchSize : Nat) :
    writeServiceRetryLimit retryBufferLimit batchSize
      = max 1 (retryBufferLimit / batchSize) := by
  unfold writeServiceRetryLimit
  rcases Nat.eq_zero_or_pos (retryBufferLimit / batchSize) with h | h
  · simp [h]
  · simp [Nat.pos_iff_ne_zero.mp h, Nat.one_le_iff_ne_zero.mpr, h.le,
      Nat.max_eq_right (Nat.one_le_iff_ne_zero.mpr (Nat.pos_iff_ne_zero.mp h))]

theorem pushAll_list_spec {α : Type} (K : Nat) (hK : 1 ≤ K) :
    ∀ (xs : List α) (l : List α), l.length ≤ K →
      (pushAll (⟨l, K⟩ : GoQueue α) xs).1
        = ⟨(l ++ xs).drop (l.length + xs.length - K), K⟩ := by
  intro xs
  induction xs with
  | nil =>
    intro l hl
    simp [pushAll, Nat.sub_eq_zero_of_le hl]
  | cons x rest ih =>
    intro l hl
    by_cases hfull : l.length = K
    · -- full: the push pops the head first
      rcases l with _ | ⟨h, t⟩
      · exfalso; simp at hfull; omega
      · have ht : t.length + 1 = K := by simpa using hfull
        have hpush : (GoQueue.push ⟨h :: t, K⟩ x) = (⟨t ++ [x], K⟩, true) := by
          simp [GoQueue.push, GoQueue.pop, hfull]
        have hlen : (t ++ [x]).length ≤ K := by simp; omega
        have hrec := ih (t ++ [x]) hlen
        simp only [pushAll, hpush, hrec]
        congr 1
        have h1 : (t ++ [x]).length + rest.length - K = rest.length := by
          simp; omega
        have h2 : (h :: t).length + (x :: rest).length - K = rest.length + 1 := by
          simp; omega
        rw [h1, h2]
        have h3 : (h :: t) ++ x :: rest = h :: (t ++ [x] ++ rest) := by simp
        rw [h3, List.drop_succ_cons]
    · have hlt : l.length < K := lt_of_le_of_ne hl hfull
      have hpush : (GoQueue.push ⟨l, K⟩ x) = (⟨l ++ [x], K⟩, false) := by
        simp [GoQueue.push, hfull]
      have hlen : (l ++ [x]).length ≤ K := by simp; omega
      have hrec := ih (l ++ [x]) hlen
      simp only [pushAll, hpush, hrec]
      congr 1
      have h1 : (l ++ [x]).length + rest.length - K
          = l.length + (x :: rest).length - K := by simp; omega
      have h2 : l ++ [x] ++ rest = l ++ x :: rest := by simp
      rw [h1, h2]

theorem pushAll_bools_spec {α : Type} (K : Nat) (hK : 1 ≤ K) :
    ∀ (xs : List α) (l : List α), l.length ≤ K →
      (pushAll (⟨l, K⟩ : GoQueue α) xs).2
        = (List.range xs.length).map (fun i => decide (K ≤ l.length + i)) := by
  intro xs
  induction xs with
  | nil => intro l _; simp [pushAll]
  | cons x rest ih =>
    intro l hl
    have hrangemap : ∀ (f : Nat → Bool),
        (List.range (rest.length + 1)).map f
          = f 0 :: (List.range rest.length).map (fun i => f (i + 1)) := by
      intro f
      rw [List.range_succ_eq_map]
      simp [List.map_map, Function.comp]
    by_cases hfull : l.length = K
    · rcases l with _ | ⟨h, t⟩
      · exfalso; simp at hfull; omega
      · have ht : t.length + 1 = K := by simpa using hfull
        have hpush : (GoQueue.push ⟨h :: t, K⟩ x) = (⟨t ++ [x], K⟩, true) := by
          simp [GoQueue.push, GoQueue.pop, hfull]
        have hlen : (t ++ [x]).length ≤ K := by simp; omega
        have hrec := ih (t ++ [x]) hlen
        simp only [pushAll, hpush, hrec, List.length_cons]
        rw [hrangemap (fun i => decide (K ≤ t.length + 1 + i))]
        congr 1
        · have e1 : K ≤ t.length + 1 + 0 := by omega
          simp [e1]
        · apply List.map_congr_left
          intro i _
          have e2 : K ≤ (t ++ [x]).length + i := by simp; omega
          have e3 : K ≤ t.length + 1 + (i + 1) := by omega
          rw [decide_eq_true e2, decide_eq_true e3]
    · have hlt : l.length < K := lt_of_le_of_ne hl hfull
      have hpush : (GoQueue.push ⟨l, K⟩ x) = (⟨l ++ [x], K⟩, false) := by
        simp [GoQueue.push, hfull]
      have hlen : (l ++ [x]).length ≤ K := by simp; omega
      have hrec := ih (l ++ [x]) hlen
      simp only [pushAll, hpush, hrec, List.length_cons]
      rw [hrangemap (fun i => decide (K ≤ l.length + i))]
      congr 1
      · have e1 : ¬ (K ≤ l.length + 0) := by omega
        simp [e1]
        omega
      · apply List.map_congr_left
        intro i _
        have e : (l ++ [x]).length + i = l.length + (i + 1) := by simp; omega
        rw [e]

/-- C1. The retry queue created by `newWriteService` has capacity
`K = max(1, RetryBufferLimit / BatchSize)`; after any sequence of pushes
starting from the fresh queue, its length never exceeds `K`, it holds exactly
the `K` most recently pushed elements in FIFO order (`(l).drop (n - K)`), and
each push returned `true` exactly when the queue was full — i.e. for the
pushes with at least `K` earlier pushes — so that it evicted the oldest
element. -/
theorem retry_queue_bounded_fifo {α : Type} (retryBufferLimit batchSize : Nat)
    (hBS : 0 < batchSize) (xs : List α) :
    writeServiceRetryLimit retryBufferLimit batchSize
        = max 1 (retryBufferLimit / batchSize)
    ∧ (pushAll (newQueue α (writeServiceRetryLimit retryBufferLimit batchSize)) xs).1.list
        = xs.drop (xs.length - writeServiceRetryLimit retryBufferLimit batchSize)
    ∧ (pushAll (newQueue α (writeServiceRetryLimit retryBufferLimit batchSize)) xs).1.list.length
        ≤ writeServiceRetryLimit retryBufferLimit batchSize
    ∧ (pushAll (newQueue α (writeServiceRetryLimit retryBufferLimit batchSize)) xs).2
        = (List.range xs.length).map
            (fun i => decide (writeServiceRetryLimit retryBufferLimit batchSize ≤ i)) := by
  set K := writeServiceRetryLimit retryBufferLimit batchSize with hKdef
  have hK : 1 ≤ K := by
    rw [hKdef, writeServiceRetryLimit_eq_max]
    exact le_max_left 1 _
  have hlist := pushAll_list_spec K hK xs [] (by simp)
  have hbools := pushAll_bools_spec K hK xs [] (by simp)
  refine ⟨writeServiceRetryLimit_eq_max _ _, ?_, ?_, ?_⟩
  · rw [newQueue, hlist]; simp
  · rw [newQueue, hlist]
    simp only [List.nil_append, List.length_nil, Nat.zero_add, List.length_drop]
    omega
  · rw [newQueue, hbools]; simp

/-- Witness for C1 at a concrete instance: `RetryBufferLimit = 5`,
`BatchSize = 2`, so `K = 2`, pushing five elements. -/
theorem retry_queue_bounded_fifo_witness :
    (0 : Nat) < 2
    ∧ (writeServiceRetryLimit 5 2 = max 1 (5 / 2)
       ∧ (pushAll (newQueue Nat (writeServiceRetryLimit 5 2)) [10, 20, 30, 40, 50]).1.list
           = [10, 20, 30, 40, 50].drop (5 - writeServiceRetryLimit 5 2)
       ∧ (pushAll (newQueue Nat (writeServiceRetryLimit 5 2)) [10, 20, 30, 40, 50]).1.list.length
           ≤ writeServiceRetryLimit 5 2
       ∧ (pushAll (newQueue Nat (writeServiceRetryLimit 5 2)) [10, 20, 30, 40, 50]).2
           = (List.range 5).map (fun i => decide (writeServiceRetryLimit 5 2 ≤ i))) :=
  ⟨by decide, retry_queue_bounded_fifo 5 2 (by decide) [10, 20, 30, 40, 50]⟩

/-! ## Write service (`writeService.go`, `writeApiBlocking.go`)

`batch` carries the line-protocol payload, a retry interval (seconds) and a
retry counter.  The HTTP transport is external: `postRequest`'s outcome is a
parameter (`none` = 2xx success, `some e` = `*Error` with status code and
parsed `Retry-After`).  The queue element type is `Option GoBatch`, modelling
the Go `*batch` pointers (`none` = `nil`). -/

structure GoBatch where
  batch : String
  retryInterval : Nat
  retries : Nat
deriving Repr, DecidableEq

/-- Relevant fields of `Options` (`client.go`). -/
structure GoOptions where
  batchSize : Nat
  flushInterval : Nat
  retryInterval : Nat
  maxRetries : Nat
  retryBufferLimit : Nat
  debug : Nat
  precision : Int
  useGZip : Bool
deriving Repr, DecidableEq

/-- `DefaultOptions` as written in `client.go`: `&Options{BatchSize: 5000,
MaxRetries: 3, RetryInterval: 60, FlushInterval: 1000, Precision:
time.Nanosecond, UseGZip: false, RetryBufferLimit: 10000}` (the `Debug` field
keeps its zero value). -/
def defaultOptionsClient : GoOptions :=
  { batchSize := 5000, maxRetries := 3, retryInterval := 60,
    flushInterval := 1000, precision := 1, useGZip := false,
    retryBufferLimit := 10000, debug := 0 }

/-- `DefaultOptions` as written in `options.go` (package `influxdb2`):
`&Options{BatchSize: 1000, MaxRetries: 3, RetryInterval: 1000, FlushInterval:
1000, Precision: time.Nanosecond, UseGZip: false, RetryBufferLimit: 10000}`
(the `DebugLevel` field keeps its zero value). -/
def defaultOptionsInfluxdb2 : GoOptions :=
  { batchSize := 1000, maxRetries := 3, retryInterval := 1000,
    flushInterval := 1000, precision := 1, useGZip := false,
    retryBufferLimit := 10000, debug := 0 }

/-- The `*Error` returned by `postRequest` for a non-2xx response:
`StatusCode` and the parsed `Retry-After` header (0 when absent). -/
structure GoHttpError where
  statusCode : Nat
  retryAfter : Nat
deriving Repr, DecidableEq

/-- `writeService.writeBatch` (`writeService.go` lines 92-134), from the point
where `postRequest` has returned.  `resp = none` is a 2xx response; `resp =
some e` a non-2xx response.  On 429/503 the interval is taken from
`Retry-After` when positive, otherwise from the configured `RetryInterval`,
and the batch is queued only while `retries < MaxRetries`.  The result is the
updated retry queue and the returned error.  (The `writeUrl`/gzip failure
paths, which return before the request is made, are outside this model.) -/
def writeBatch (opts : GoOptions) (q : GoQueue (Option GoBatch)) (b : GoBatch)
    (resp : Option GoHttpError) : GoQueue (Option GoBatch) × Option GoHttpError :=
  match resp with
  | none => (q, none)
  | some e =>
    if e.statusCode = 429 ∨ e.statusCode = 503 then
      let b' : GoBatch :=
        if 0 < e.retryAfter then { b with retryInterval := e.retryAfter }
        else { b with retryInterval := opts.retryInterval }
      if b'.retries < opts.maxRetries then ((q.push (some b')).1, some e)
      else (q, some e)
    else (q, some e)

/-- C2. On an HTTP 429 or 503 response, `writeBatch` queues the batch with
`retryInterval` set from the server's `Retry-After` when positive and from the
configured `RetryInterval` otherwise, pushes it if and only if
`retries < MaxRetries`, and returns the error; on any other HTTP 4xx/5xx error
it returns the error and leaves the retry queue untouched. -/
theorem writeBatch_retry_classification (opts : GoOptions)
    (q : GoQueue (Option GoBatch)) (b : GoBatch) (e : GoHttpError) :
    (e.statusCode = 429 ∨ e.statusCode = 503 →
      (writeBatch opts q b (some e)).2 = some e
      ∧ (b.retries < opts.maxRetries →
          (writeBatch opts q b (some e)).1
            = (q.push (some { b with retryInterval :=
                if 0 < e.retryAfter then e.retryAfter else opts.retryInterval })).1)
      ∧ (¬ b.retries < opts.maxRetries → (writeBatch opts q b (some e)).1 = q))
    ∧ (400 ≤ e.statusCode → e.statusCode ≤ 599 →
        e.statusCode ≠ 429 → e.statusCode ≠ 503 →
        writeBatch opts q b (some e) = (q, some e)) := by
  constructor
  · intro h45
    by_cases hra : 0 < e.retryAfter
    · by_cases hr : b.retries < opts.maxRetries
      · refine ⟨?_, fun _ => ?_, fun hc => absurd hr hc⟩ <;>
          simp [writeBatch, h45, hra, hr]
      · refine ⟨?_, fun hc => absurd hc hr, fun _ => ?_⟩ <;>
          simp [writeBatch, h45, hra, hr]
    · by_cases hr : b.retries < opts.maxRetries
      · refine ⟨?_, fun _ => ?_, fun hc => absurd hr hc⟩ <;>
          simp [writeBatch, h45, hra, hr]
      · refine ⟨?_, fun hc => absurd hc hr, fun _ => ?_⟩ <;>
          simp [writeBatch, h45, hra, hr]
  · intro _ _ h429 h503
    have hne : ¬ (e.statusCode = 429 ∨ e.statusCode = 503) := by
      rintro (h | h) <;> simp_all
    simp [writeBatch, hne]

/-- Witness for C2: a 429 response with `Retry-After: 5`, retries below the
maximum, and a 500 response. -/
theorem writeBatch_retry_classification_witness :
    ((writeBatch defaultOptionsClient (newQueue (Option GoBatch) 2)
        ⟨"m f=1i\x0a", 60, 0⟩ (some ⟨429, 5⟩)).1.list
      = [some ⟨"m f=1i\x0a", 5, 0⟩])
    ∧ (writeBatch defaultOptionsClient (newQueue (Option GoBatch) 2)
        ⟨"m f=1i\x0a", 60, 0⟩ (some ⟨500, 0⟩)
      = (newQueue (Option GoBatch) 2, some ⟨500, 0⟩)) := by
  constructor
  · have h := (writeBatch_retry_classification defaultOptionsClient
      (newQueue (Option GoBatch) 2) ⟨"m f=1i\x0a", 60, 0⟩ ⟨429, 5⟩).1
      (Or.inl rfl)
    rw [h.2.1 (by decide)]
    decide
  · exact (writeBatch_retry_classification defaultOptionsClient
      (newQueue (Option GoBatch) 2) ⟨"m f=1i\x0a", 60, 0⟩ ⟨500, 0⟩).2
      (by decide) (by decide) (by decide) (by decide)

/-- Error returned by `handleWrite`: either the context's cancellation error
or the `*Error` propagated from `writeBatch`. -/
inductive GoWriteError where
  | ctxCancelled : GoWriteError
  | http : GoHttpError → GoWriteError
deriving Repr, DecidableEq

/-- One iteration of the loop of `writeService.handleWrite`
(`writeService.go` lines 44-90); `rec` is the continuation for the next
iteration (`retrying`, `batch`, `batchToWrite`, queue, remaining responses).

External interactions are oracles fixed for the call: `cancelled` is the
context's state, `canWrite` the outcome of the single reachable
`lastWriteAttempt.IsZero() || time.Now().After(...)` test, and `responses`
the successive outcomes of `postRequest` inside `writeBatch`, consumed one per
write.  `batch` and `batchToWrite` are the two `*batch` variables (`none` =
`nil`).  The result is `none` when the fuel or the response oracle runs out or
a `nil` queue element is dereferenced — none of which occurs in the real
executions proved below — and otherwise the final queue, the unconsumed
responses, and the returned error. -/
def handleWriteStep (opts : GoOptions) (cancelled canWrite : Bool)
    (rec : Bool → Option GoBatch → Option GoBatch → GoQueue (Option GoBatch) →
      List (Option GoHttpError) →
      Option (GoQueue (Option GoBatch) × List (Option GoHttpError) × Option GoWriteError))
    (retrying : Bool) (batch batchToWrite : Option GoBatch)
    (q : GoQueue (Option GoBatch)) (responses : List (Option GoHttpError)) :
    Option (GoQueue (Option GoBatch) × List (Option GoHttpError) × Option GoWriteError) :=
  if cancelled then some (q, responses, some .ctxCancelled)
  else if q.isEmpty then
    -- retry queue empty: fall through to the write step unchanged
    match batchToWrite with
    | some bb =>
      match responses with
      | [] => none
      | r :: rs =>
        match writeBatch opts q bb r with
        | (q', some e) => some (q', rs, some (.http e))
        | (q', none) => rec retrying batch none q' rs
    | none => some (q, responses, none)
  else if retrying = false ∧ canWrite = false then
    -- cannot write yet: store the fresh batch and stop
    some ((q.push batch).1, responses, none)
  else
    -- retrying mode: take the oldest batch from the queue
    match q.pop with
    | (some (some bb), q₂) =>
      let bb' : GoBatch := { bb with retries := bb.retries + 1 }
      let (q₃, batch₃) :=
        match batch with
        | some fb => ((q₂.push (some fb)).1, (none : Option GoBatch))
        | none => (q₂, none)
      match responses with
      | [] => none
      | r :: rs =>
        match writeBatch opts q₃ bb' r with
        | (q', some e) => some (q', rs, some (.http e))
        | (q', none) => rec true batch₃ none q' rs
    | (some none, _) => none
    | (none, _) => none

def handleWriteLoop (opts : GoOptions) (cancelled canWrite : Bool) :
    Nat → Bool → Option GoBatch → Option GoBatch → GoQueue (Option GoBatch) →
    List (Option GoHttpError) →
    Option (GoQueue (Option GoBatch) × List (Option GoHttpError) × Option GoWriteError)
  | 0, _, _, _, _, _ => none
  | fuel + 1, retrying, batch, batchToWrite, q, responses =>
    handleWriteStep opts cancelled canWrite
      (handleWriteLoop opts cancelled canWrite fuel)
      retrying batch batchToWrite q responses

theorem handleWriteLoop_succ (opts : GoOptions) (cancelled canWrite : Bool)
    (fuel : Nat) (retrying : Bool) (batch batchToWrite : Option GoBatch)
    (q : GoQueue (Option GoBatch)) (responses : List (Option GoHttpError)) :
    handleWriteLoop opts cancelled canWrite (fuel + 1) retrying batch
        batchToWrite q responses
      = handleWriteStep opts cancelled canWrite
          (handleWriteLoop opts cancelled canWrite fuel)
          retrying batch batchToWrite q responses := rfl

/-- `writeService.handleWrite(ctx, batch)`: runs the loop on the fresh batch
with `retrying = false`.  The fuel `responses.length + 1` is sufficient since
every loop continuation consumes one response. -/
def handleWrite (opts : GoOptions) (cancelled canWrite : Bool)
    (q : GoQueue (Option GoBatch)) (b : GoBatch)
    (responses : List (Option GoHttpError)) :
    Option (GoQueue (Option GoBatch) × List (Option GoHttpError) × Option GoWriteError) :=
  handleWriteLoop opts cancelled canWrite (responses.length + 1) false
    (some b) (some b) q responses

/-- The payload built by the loop of `writeApiBlockingImpl.WriteRecord`
(`writeApiBlocking.go`): each line's bytes with `0xa` appended, written in
order into the builder. -/
def goPayload (lines : List String) : String :=
  lines.foldl (fun sb l => sb ++ l ++ "\x0a") ""

/-- `writeApiBlockingImpl.WriteRecord(ctx, line...)` composed with
`writeApiBlockingImpl.write`: for a non-empty argument list it calls
`handleWrite` once with the joined payload and a batch seeded with the
configured `RetryInterval`; for an empty list it returns `nil` without calling
`handleWrite`. -/
def writeRecord (opts : GoOptions) (cancelled canWrite : Bool)
    (q : GoQueue (Option GoBatch)) (responses : List (Option GoHttpError))
    (lines : List String) :
    Option (GoQueue (Option GoBatch) × List (Option GoHttpError) × Option GoWriteError) :=
  if 0 < lines.length then
    handleWrite opts cancelled canWrite q
      ⟨goPayload lines, opts.retryInterval, 0⟩ responses
  else
    some (q, responses, none)

theorem stringJoin_cons (x : String) (t : List String) :
    String.join (x :: t) = x ++ String.join t := by
  simp only [String.join, List.foldl_cons, String.empty_append]
  induction t generalizing x with
  | nil => simp [String.append_empty]
  | cons y r ih =>
    rw [List.foldl_cons, List.foldl_cons, String.empty_append, ih (x ++ y), ih y,
      String.append_assoc]

theorem goPayload_eq_join (lines : List String) :
    goPayload lines = String.join (lines.map (fun l => l ++ "\x0a")) := by
  have h : ∀ (ls : List String) (acc : String),
      ls.foldl (fun sb l => sb ++ l ++ "\x0a") acc
        = acc ++ String.join (ls.map (fun l => l ++ "\x0a")) := by
    intro ls
    induction ls with
    | nil => intro acc; simp [String.join, String.append_empty]
    | cons x rest ih =>
      intro acc
      rw [List.foldl_cons, ih, List.map_cons, stringJoin_cons]
      simp [String.append_assoc]
  rw [goPayload, h lines "", String.empty_append]

theorem handleWriteLoop_drain (opts : GoOptions) :
    ∀ (bs : List GoBatch) (fuel : Nat) (q : GoQueue (Option GoBatch))
      (rs : List (Option GoHttpError)),
      bs.length ≤ q.limit → q.list = bs.map some →
      rs = List.replicate bs.length none → bs.length + 1 ≤ fuel →
      handleWriteLoop opts false true fuel true none none q rs
        = some (⟨[], q.limit⟩, [], none) := by
  intro bs
  induction bs with
  | nil =>
    intro fuel q rs _ hq hrs hfuel
    rcases fuel with _ | f
    · omega
    rcases q with ⟨qlist, qlimit⟩
    simp only at hq
    subst hq
    subst hrs
    rw [handleWriteLoop_succ]
    simp [handleWriteStep, GoQueue.isEmpty]
  | cons bb rest ih =>
    intro fuel q rs hlen hq hrs hfuel
    rcases fuel with _ | f
    · omega
    rcases q with ⟨qlist, qlimit⟩
    simp only at hq hlen
    subst hq
    subst hrs
    have hne : (GoQueue.isEmpty
        ⟨(bb :: rest).map some, qlimit⟩) = false := by
      simp [GoQueue.isEmpty]
    simp only [List.length_cons, List.replicate_succ, List.map_cons] at hne ⊢
    rw [handleWriteLoop_succ]
    simp only [handleWriteStep, hne, Bool.false_eq_true, if_false, false_and,
      GoQueue.pop, writeBatch]
    exact ih f ⟨rest.map some, qlimit⟩ (List.replicate rest.length none)
      (by simp only [List.length_cons] at hlen; simp; omega) rfl rfl
      (by simp only [List.length_cons] at hfuel; omega)

/-- C5. For a non-empty argument list, the blocking `WriteRecord` performs
exactly one `handleWrite` call, on a batch whose payload is the concatenation
of the lines each terminated by a newline and whose interval is the configured
`RetryInterval`; and that single invocation honors the retry queue: when the
context is live, the retry wait has elapsed, and the server accepts every
write, a queue previously populated with `bs` is fully drained. -/
theorem writeRecord_single_handleWrite (opts : GoOptions)
    (cancelled canWrite : Bool) (q : GoQueue (Option GoBatch))
    (responses : List (Option GoHttpError)) (lines : List String)
    (hne : lines ≠ []) :
    writeRecord opts cancelled canWrite q responses lines
      = handleWrite opts cancelled canWrite q
          ⟨String.join (lines.map (fun l => l ++ "\x0a")), opts.retryInterval, 0⟩
          responses
    ∧ (∀ bs : List GoBatch, cancelled = false → canWrite = true →
        q.list = bs.map some → q.list.length ≤ q.limit →
        responses = List.replicate (bs.length + 1) none →
        writeRecord opts cancelled canWrite q responses lines
          = some (⟨[], q.limit⟩, [], none)) := by
  have hlen : 0 < lines.length := List.length_pos.mpr hne
  constructor
  · simp [writeRecord, hlen, goPayload_eq_join]
  · intro bs hc hw hq hql hr
    subst hc hw hr
    rcases q with ⟨qlist, qlimit⟩
    simp only at hq hql
    subst hq
    simp only [writeRecord, hlen, if_pos, handleWrite]
    simp only [List.length_replicate]
    rcases bs with _ | ⟨bb, rest⟩
    · -- empty queue: the fresh batch is written, then the loop exits
      rw [show ([] : List GoBatch).length + 1 + 1 = (0 + 1) + 1 from rfl,
        handleWriteLoop_succ]
      simp only [List.map_nil, List.length_nil, List.replicate_succ,
        List.replicate_zero]
      simp only [handleWriteStep, GoQueue.isEmpty, List.length_nil,
        if_true, Bool.false_eq_true, if_false, writeBatch]
      rw [handleWriteLoop_succ]
      simp [handleWriteStep, GoQueue.isEmpty]
    · -- non-empty queue: first iteration pops the head, requeues the fresh
      -- batch, then the drain lemma applies
      have hrestlt : rest.length + 1 ≤ qlimit := by
        simp only [List.length_map, List.length_cons] at hql
        omega
      have hne2 : (GoQueue.isEmpty ⟨some bb :: rest.map some, qlimit⟩) = false := by
        simp [GoQueue.isEmpty]
      simp only [List.map_cons, List.length_cons, List.replicate_succ]
      rw [handleWriteLoop_succ]
      simp only [handleWriteStep, hne2, Bool.false_eq_true, if_false, false_and,
        GoQueue.pop]
      have hpush : (GoQueue.push ⟨rest.map some, qlimit⟩
            (some ⟨goPayload lines, opts.retryInterval, 0⟩))
          = (⟨rest.map some ++ [some ⟨goPayload lines, opts.retryInterval, 0⟩],
              qlimit⟩, false) := by
        have h0 : ¬ (rest.length = qlimit) := by omega
        simp [GoQueue.push, List.length_map, h0]
      rw [hpush]
      simp only [writeBatch]
      apply handleWriteLoop_drain opts
        (rest ++ [⟨goPayload lines, opts.retryInterval, 0⟩])
      · simpa using hrestlt
      · simp
      · simp [List.replicate_succ]
      · simp

/-- Witness for C5: two lines, an empty retry queue of capacity 2, one
successful response. -/
theorem writeRecord_single_handleWrite_witness :
    (writeRecord defaultOptionsClient false true (newQueue (Option GoBatch) 2)
        [none] ["m f=1i", "m f=2i"]
      = handleWrite defaultOptionsClient false true (newQueue (Option GoBatch) 2)
          ⟨String.join (["m f=1i", "m f=2i"].map (fun l => l ++ "\x0a")), 60, 0⟩
          [none])
    ∧ (writeRecord defaultOptionsClient false true (newQueue (Option GoBatch) 2)
        [none] ["m f=1i", "m f=2i"]
      = some (⟨[], 2⟩, [], none)) := by
  have h := writeRecord_single_handleWrite defaultOptionsClient false true
    (newQueue (Option GoBatch) 2) [none] ["m f=1i", "m f=2i"] (by decide)
  exact ⟨h.1, h.2 [] rfl rfl rfl (by decide) rfl⟩

/-- C4. Evaluation of the `DefaultOptions` literals.  `client.go` matches the
claimed table except `RetryInterval`: its doc comment reads "Default 30s" but
the literal is `60`.  `options.go` (package `influxdb2`) further diverges with
`BatchSize: 1000` and `RetryInterval: 1000` (ms). -/
theorem defaultOptions_values :
    defaultOptionsClient.batchSize = 5000
    ∧ defaultOptionsClient.flushInterval = 1000
    ∧ defaultOptionsClient.maxRetries = 3
    ∧ defaultOptionsClient.retryBufferLimit = 10000
    ∧ defaultOptionsClient.precision = 1
    ∧ defaultOptionsClient.useGZip = false
    ∧ defaultOptionsClient.debug = 0
    ∧ defaultOptionsClient.retryInterval = 60
    ∧ defaultOptionsInfluxdb2.batchSize = 1000
    ∧ defaultOptionsInfluxdb2.retryInterval = 1000 := by
  decide

/-! ## Point and line-protocol serialization (`point.go`)

Field values after `convertField` normalization are one of `bool`, `int64`,
`uint64`, `float64`, `string`.  A `float64` is carried by its Go `%v`
rendering (`fmt` formatting of floats is external to this model); the other
values are carried exactly. -/

inductive LPFieldValue where
  | fBool : Bool → LPFieldValue
  | fInt64 : Int → LPFieldValue
  | fUInt64 : Nat → LPFieldValue
  | fFloat64 : String → LPFieldValue
  | fString : String → LPFieldValue
deriving Repr, DecidableEq

structure LPTag where
  key : String
  value : String
deriving Repr, DecidableEq

structure LPField where
  key : String
  value : LPFieldValue
deriving Repr, DecidableEq

/-- A non-zero `time.Time` as seen by `ToLineProtocolBuffer`: `UnixNano()` is
`sec * 1e9 + nsec` and `Unix()` is `sec`. -/
structure GoTimeInstant where
  sec : Int
  nsec : Nat
deriving Repr, DecidableEq

/-- `Point` (`point.go`): measurement, ordered tags and fields, and the
timestamp (`none` models the zero `time.Time`, for which `IsZero()` holds). -/
structure GoPoint where
  measurement : String
  tags : List LPTag
  fields : List LPField
  timestamp : Option GoTimeInstant
deriving Repr, DecidableEq

/-- `escapeKey` on the character list: a backslash is written before each
space, comma and equals sign; every other character (backslashes included) is
copied unchanged. -/
def escapeKeyL : List Char → List Char
  | [] => []
  | c :: rest =>
    if c = ' ' ∨ c = ',' ∨ c = '=' then '\\' :: c :: escapeKeyL rest
    else c :: escapeKeyL rest

def escapeKey (s : String) : String := ⟨escapeKeyL s.data⟩

/-- `escapeValue` on the character list: a backslash is written before each
backslash and double quote. -/
def escapeValueL : List Char → List Char
  | [] => []
  | c :: rest =>
    if c = '\\' ∨ c = '"' then '\\' :: c :: escapeValueL rest
    else c :: escapeValueL rest

def escapeValue (s : String) : String := ⟨escapeValueL s.data⟩

/-- Go `%v` of a normalized field value (`fmt.Sprintf("%v", f.Value)`):
booleans print `true`/`false`, integers in decimal, floats by their carried
rendering; the string case (quoted by the caller) prints the string itself. -/
def sprintfV : LPFieldValue → String
  | .fBool b => if b then "true" else "false"
  | .fInt64 n => toString n
  | .fUInt64 n => toString n
  | .fFloat64 r => r
  | .fString s => s

/-- The field-value rendering of `ToLineProtocolBuffer`: the first switch
quotes and escapes strings and prints everything else with `%v`; the second
switch appends `i` after an `int64` and `u` after a `uint64`. -/
def fieldValueText (v : LPFieldValue) : String :=
  (match v with
   | .fString s => "\"" ++ escapeValue s ++ "\""
   | v => sprintfV v)
  ++ (match v with
      | .fInt64 _ => "i"
      | .fUInt64 _ => "u"
      | _ => "")

def tagText (t : LPTag) : String := escapeKey t.key ++ "=" ++ escapeKey t.value

def fieldText (f : LPField) : String :=
  escapeKey f.key ++ "=" ++ fieldValueText f.value

/-- The tag loop of `ToLineProtocolBuffer`: a comma before every tag except
the first. -/
def renderTags : List LPTag → String
  | [] => ""
  | t :: rest => tagText t ++ String.join (rest.map (fun t => "," ++ tagText t))

/-- The field loop of `ToLineProtocolBuffer`: a comma before every field
except the first. -/
def renderFields : List LPField → String
  | [] => ""
  | f :: rest => fieldText f ++ String.join (rest.map (fun f => "," ++ fieldText f))

def unixNano (ts : GoTimeInstant) : Int := ts.sec * 1000000000 + ts.nsec

/-- The timestamp switch of `ToLineProtocolBuffer`.  `precision` is the Go
`time.Duration` in nanoseconds; `time.Microsecond = 1000`, `time.Millisecond =
1000000`, `time.Second = 1000000000`, everything else falls to the `ns`
default.  Go's `/` on `int64` truncates toward zero (`Int.tdiv`). -/
def formatTimestamp (ts : GoTimeInstant) (precision : Int) : String :=
  if precision = 1000 then toString (Int.tdiv (unixNano ts) 1000)
  else if precision = 1000000 then toString (Int.tdiv (unixNano ts) 1000000)
  else if precision = 1000000000 then toString ts.sec
  else toString (unixNano ts)

/-- `Point.ToLineProtocol` via `ToLineProtocolBuffer`: escaped measurement,
an unconditional comma, the tags, a space, the fields, the optional space and
timestamp (omitted when the timestamp is the zero time), and a newline. -/
def toLineProtocol (p : GoPoint) (precision : Int) : String :=
  escapeKey p.measurement ++ "," ++ renderTags p.tags
  ++ " " ++ renderFields p.fields
  ++ (match p.timestamp with
      | some ts => " " ++ formatTimestamp ts precision
      | none => "")
  ++ "\n"

/-! ### Unescaped spaces

A space character of the serialized line is *escaped* when the character
immediately before it is a backslash (the convention of the spec's escaping
table).  `spacesEscapedAux prev l` scans `l` with `prev` the character
preceding its first element; the sentinel `'A'` (any non-backslash) stands for
"no preceding character". -/

def spacesEscapedAux : Char → List Char → Bool
  | _, [] => true
  | prev, c :: rest => (!(c == ' ') || (prev == '\\')) && spacesEscapedAux c rest

/-- Every space of `l` is immediately preceded by a backslash. -/
def noUnescapedSpace (l : List Char) : Bool := spacesEscapedAux 'A' l

/-- `spacesEscapedAux` over an append splits at the boundary character. -/
theorem spacesEscapedAux_append (a : List Char) :
    ∀ (prev : Char) (b : List Char),
      spacesEscapedAux prev (a ++ b)
        = (spacesEscapedAux prev a && spacesEscapedAux (a.getLastD prev) b) := by
  induction a with
  | nil => intro prev b; simp [spacesEscapedAux, List.getLastD]
  | cons c rest ih =>
    intro prev b
    simp only [List.cons_append, spacesEscapedAux, List.append_eq, ih c b,
      List.getLastD_cons, Bool.and_assoc]

/-- Strings for which the scan succeeds whatever character precedes them. -/
def SpacesOk (l : List Char) : Prop := ∀ prev : Char, spacesEscapedAux prev l = true

theorem spacesOk_append {a b : List Char} (ha : SpacesOk a) (hb : SpacesOk b) :
    SpacesOk (a ++ b) := by
  intro prev
  rw [spacesEscapedAux_append, ha prev, hb (a.getLastD prev)]
  rfl

theorem spacesOk_nil : SpacesOk [] := fun _ => rfl

theorem spacesOk_singleton {c : Char} (h : c ≠ ' ') : SpacesOk [c] := by
  intro prev
  simp [spacesEscapedAux, h]

theorem spacesOk_escapeKeyL (l : List Char) : SpacesOk (escapeKeyL l) := by
  induction l with
  | nil => exact spacesOk_nil
  | cons c rest ih =>
    intro prev
    by_cases hc : c = ' ' ∨ c = ',' ∨ c = '='
    · simp only [escapeKeyL, hc, if_true]
      simp only [spacesEscapedAux, ih c]
      simp
    · simp only [escapeKeyL, hc, if_false]
      have hcs : ¬ (c = ' ') := fun h => hc (Or.inl h)
      simp only [spacesEscapedAux, ih c]
      simp [hcs]

theorem spacesOk_escapeKey (s : String) : SpacesOk (escapeKey s).data :=
  spacesOk_escapeKeyL s.data

theorem spacesOk_join {pieces : List String}
    (h : ∀ p ∈ pieces, SpacesOk p.data) :
    SpacesOk (String.join pieces).data := by
  induction pieces with
  | nil => intro prev; rfl
  | cons p rest ih =>
    rw [stringJoin_cons, String.data_append]
    exact spacesOk_append (h p (by simp))
      (ih (fun q hq => h q (by simp [hq])))

theorem spacesOk_tagText (t : LPTag) : SpacesOk (tagText t).data := by
  rw [tagText, String.data_append, String.data_append]
  exact spacesOk_append (spacesOk_append (spacesOk_escapeKey t.key)
    (spacesOk_singleton (by decide))) (spacesOk_escapeKey t.value)

theorem spacesOk_renderTags (tags : List LPTag) :
    SpacesOk (renderTags tags).data := by
  cases tags with
  | nil => exact spacesOk_nil
  | cons t rest =>
    rw [renderTags, String.data_append]
    refine spacesOk_append (spacesOk_tagText t) (spacesOk_join ?_)
    intro p hp
    rcases List.mem_map.mp hp with ⟨u, _, rfl⟩
    rw [String.data_append]
    exact spacesOk_append (spacesOk_singleton (by decide)) (spacesOk_tagText u)

/-- The measurement-and-tags section of the serialized line. -/
def tagSection (p : GoPoint) : String :=
  escapeKey p.measurement ++ "," ++ renderTags p.tags

/-- The fields section of the serialized line. -/
def fieldSection (p : GoPoint) : String := renderFields p.fields

theorem spacesOk_tagSection (p : GoPoint) : SpacesOk (tagSection p).data := by
  rw [tagSection, String.data_append, String.data_append]
  exact spacesOk_append (spacesOk_append (spacesOk_escapeKey p.measurement)
    (spacesOk_singleton (by decide))) (spacesOk_renderTags p.tags)

theorem escapeKeyL_ne_nil {l : List Char} (h : l ≠ []) : escapeKeyL l ≠ [] := by
  cases l with
  | nil => exact absurd rfl h
  | cons c rest =>
    simp only [escapeKeyL]
    split <;> simp

theorem escapeKeyL_getLast? (l : List Char) :
    (escapeKeyL l).getLast? = l.getLast? := by
  induction l with
  | nil => rfl
  | cons c rest ih =>
    cases rest with
    | nil =>
      simp only [escapeKeyL]
      split <;> simp
    | cons r t =>
      have hne : escapeKeyL (r :: t) ≠ [] := escapeKeyL_ne_nil (by simp)
      have hstep : ∀ pre : List Char,
          (pre ++ escapeKeyL (r :: t)).getLast? = (r :: t).getLast? := by
        intro pre
        rw [List.getLast?_append_of_ne_nil _ hne, ih]
      rw [show escapeKeyL (c :: r :: t)
          = if c = ' ' ∨ c = ',' ∨ c = '='
            then '\\' :: c :: escapeKeyL (r :: t)
            else c :: escapeKeyL (r :: t) from rfl]
      split
      · rw [show ('\\' :: c :: escapeKeyL (r :: t))
            = ['\\', c] ++ escapeKeyL (r :: t) from rfl, hstep,
          List.getLast?_cons_cons]
      · rw [show (c :: escapeKeyL (r :: t))
            = [c] ++ escapeKeyL (r :: t) from rfl, hstep,
          List.getLast?_cons_cons]

theorem tagText_data_ne_nil (t : LPTag) : (tagText t).data ≠ [] := by
  rw [tagText, String.data_append, String.data_append]
  simp [escapeKey]

theorem tagText_last_ne_backslash (t : LPTag)
    (h : t.value.data.getLast? ≠ some '\\') :
    (tagText t).data.getLast? ≠ some '\\' := by
  rw [tagText, String.data_append, String.data_append]
  rcases hval : t.value.data with _ | ⟨v, vs⟩
  · rw [show (escapeKey t.value).data = escapeKeyL t.value.data from rfl, hval]
    simp only [escapeKeyL, List.append_nil]
    rw [List.getLast?_concat]
    simp
  · have hne : (escapeKey t.value).data ≠ [] := by
      rw [show (escapeKey t.value).data = escapeKeyL t.value.data from rfl, hval]
      exact escapeKeyL_ne_nil (by simp)
    rw [List.getLast?_append_of_ne_nil _ hne,
      show (escapeKey t.value).data = escapeKeyL t.value.data from rfl,
      escapeKeyL_getLast?]
    exact h

theorem renderTags_step_getLast? (t u : LPTag) (t2 : List LPTag) :
    (renderTags (t :: u :: t2)).data.getLast?
      = (renderTags (u :: t2)).data.getLast? := by
  obtain ⟨z, hz⟩ : ∃ z, (tagText u).data.getLast? = some z :=
    Option.isSome_iff_exists.mp
      (List.getLast?_isSome.mpr (tagText_data_ne_nil u))
  rw [renderTags, renderTags, List.map_cons, stringJoin_cons,
    String.data_append, String.data_append, String.data_append,
    String.data_append]
  rw [List.getLast?_append, List.getLast?_append, List.getLast?_append]
  simp [hz, Option.or_assoc]

theorem renderTags_last_ne_backslash (tags : List LPTag)
    (h : ∀ tl, tags.getLast? = some tl → tl.value.data.getLast? ≠ some '\\') :
    (renderTags tags).data.getLast? ≠ some '\\' := by
  induction tags with
  | nil => simp [renderTags]
  | cons t rest ih =>
    cases rest with
    | nil =>
      rw [renderTags]
      simp only [List.map_nil, String.join, List.foldl_nil, String.data_append,
        List.append_nil]
      exact tagText_last_ne_backslash t (h t (by simp))
    | cons u t2 =>
      rw [renderTags_step_getLast?]
      exact ih (fun tl htl => h tl (by rw [List.getLast?_cons_cons]; exact htl))

theorem fieldValueText_last_ne_backslash (v : LPFieldValue)
    (hfloat : ∀ r, v = .fFloat64 r → r.data.getLast? ≠ some '\\') :
    (fieldValueText v).data.getLast? ≠ some '\\' := by
  cases v with
  | fBool b =>
    cases b <;> simp [fieldValueText, sprintfV]
  | fInt64 n =>
    rw [show fieldValueText (.fInt64 n) = toString n ++ "i" from rfl,
      String.data_append, List.getLast?_concat]
    simp
  | fUInt64 n =>
    rw [show fieldValueText (.fUInt64 n) = toString n ++ "u" from rfl,
      String.data_append, List.getLast?_concat]
    simp
  | fString s =>
    rw [show fieldValueText (.fString s)
        = ("\"" ++ escapeValue s ++ "\"") ++ "" from rfl]
    simp only [String.data_append, List.append_nil]
    rw [List.getLast?_concat]
    simp
  | fFloat64 r =>
    rw [show fieldValueText (.fFloat64 r) = r ++ "" from rfl,
      String.data_append, List.append_nil]
    exact hfloat r rfl

theorem fieldText_data_ne_nil (f : LPField) : (fieldText f).data ≠ [] := by
  rw [fieldText, String.data_append, String.data_append]
  simp [escapeKey]

theorem fieldText_last_ne_backslash (f : LPField)
    (hfloat : ∀ r, f.value = .fFloat64 r → r.data.getLast? ≠ some '\\') :
    (fieldText f).data.getLast? ≠ some '\\' := by
  rw [fieldText, String.data_append, String.data_append]
  rcases hval : (fieldValueText f.value).data with _ | ⟨v, vs⟩
  · simp [List.getLast?_concat]
  · rw [List.getLast?_append_of_ne_nil _
      (by simp : (v :: vs : List Char) ≠ []), ← hval]
    exact fieldValueText_last_ne_backslash f.value hfloat

theorem renderFields_step_getLast? (f g : LPField) (t2 : List LPField) :
    (renderFields (f :: g :: t2)).data.getLast?
      = (renderFields (g :: t2)).data.getLast? := by
  obtain ⟨z, hz⟩ : ∃ z, (fieldText g).data.getLast? = some z :=
    Option.isSome_iff_exists.mp
      (List.getLast?_isSome.mpr (fieldText_data_ne_nil g))
  rw [renderFields, renderFields, List.map_cons, stringJoin_cons,
    String.data_append, String.data_append, String.data_append,
    String.data_append]
  rw [List.getLast?_append, List.getLast?_append, List.getLast?_append]
  simp [hz, Option.or_assoc]

theorem renderFields_last_ne_backslash (fields : List LPField)
    (h : ∀ fl, fields.getLast? = some fl →
      ∀ r, fl.value = .fFloat64 r → r.data.getLast? ≠ some '\\') :
    (renderFields fields).data.getLast? ≠ some '\\' := by
  induction fields with
  | nil => simp [renderFields]
  | cons f rest ih =>
    cases rest with
    | nil =>
      rw [renderFields]
      simp only [List.map_nil, String.join, List.foldl_nil, String.data_append,
        List.append_nil]
      exact fieldText_last_ne_backslash f (h f (by simp))
    | cons g t2 =>
      rw [renderFields_step_getLast?]
      exact ih (fun fl hfl => h fl (by rw [List.getLast?_cons_cons]; exact hfl))

theorem tagSection_last_ne_backslash (p : GoPoint)
    (h : ∀ tl, p.tags.getLast? = some tl → tl.value.data.getLast? ≠ some '\\') :
    (tagSection p).data.getLast? ≠ some '\\' := by
  rw [tagSection, String.data_append, String.data_append]
  cases htags : p.tags with
  | nil =>
    rw [show renderTags [] = "" from rfl]
    simp only [List.append_nil]
    rw [List.getLast?_concat]
    simp
  | cons t rest =>
    have hlast := renderTags_last_ne_backslash (t :: rest)
      (fun tl htl => h tl (by rw [htags]; exact htl))
    have hne : (renderTags (t :: rest)).data ≠ [] := by
      rw [renderTags, String.data_append]
      have := tagText_data_ne_nil t
      intro hcontra
      rcases List.append_eq_nil.mp hcontra with ⟨h1, _⟩
      exact this h1
    rw [List.getLast?_append_of_ne_nil _ hne]
    exact hlast

/-- The timestamp text as the claim states it: a space followed by `UnixNano`
for `ns`, `UnixNano/1000` for `us` (1000 ns), `UnixNano/1000000` for `ms`,
`Unix` seconds for `s`; empty (space included) for the zero time. -/
def c3TimestampText (precision : Int) : Option GoTimeInstant → String
  | none => ""
  | some ts =>
    " " ++ (if precision = 1000 then toString (Int.tdiv (unixNano ts) 1000)
      else if precision = 1000000 then toString (Int.tdiv (unixNano ts) 1000000)
      else if precision = 1000000000 then toString ts.sec
      else toString (unixNano ts))

/-- Claim C3 as stated: the output is
`measurement,tags fields timestamp\n` — the tag section, one unescaped space,
the field section, one unescaped space and the scaled timestamp (both omitted
for the zero time), and a trailing newline; the tag section itself contains no
unescaped space. -/
def c3Statement (p : GoPoint) (precision : Int) : Prop :=
  toLineProtocol p precision
      = tagSection p ++ " " ++ fieldSection p
        ++ c3TimestampText precision p.timestamp ++ "\n"
  ∧ noUnescapedSpace (tagSection p).data = true
  ∧ (tagSection p).data.getLast? ≠ some '\\'
  ∧ (p.timestamp.isSome = true → (fieldSection p).data.getLast? ≠ some '\\')
  ∧ (toLineProtocol p precision).data.getLast? = some '\n'

theorem toLineProtocol_decomp (p : GoPoint) (precision : Int) :
    toLineProtocol p precision
      = tagSection p ++ " " ++ fieldSection p
        ++ c3TimestampText precision p.timestamp ++ "\n" := by
  cases hts : p.timestamp with
  | none =>
    simp [toLineProtocol, tagSection, fieldSection, c3TimestampText, hts,
      String.append_assoc, String.append_empty]
  | some ts =>
    simp [toLineProtocol, tagSection, fieldSection, c3TimestampText,
      formatTimestamp, hts, String.append_assoc]

/-- C3 (amended).  For the four supported precisions the serialized line has
the claimed `measurement,tags fields timestamp\n` shape with the claimed
timestamp scaling, provided no tag value ends with a backslash (`escapeKey`
never escapes backslashes, so a trailing backslash in the last tag value
escapes the section separator itself — the counterexample) and the rendering
of a trailing float field does not end with a backslash (true of every Go
float formatting). -/
theorem toLineProtocol_shape (p : GoPoint) (precision : Int)
    (hπ : precision = 1 ∨ precision = 1000 ∨ precision = 1000000
      ∨ precision = 1000000000)
    (htag : ∀ tl, p.tags.getLast? = some tl →
      tl.value.data.getLast? ≠ some '\\')
    (hfloat : ∀ fl, p.fields.getLast? = some fl →
      ∀ r, fl.value = .fFloat64 r → r.data.getLast? ≠ some '\\') :
    c3Statement p precision := by
  refine ⟨toLineProtocol_decomp p precision,
    spacesOk_tagSection p 'A',
    tagSection_last_ne_backslash p htag,
    fun _ => renderFields_last_ne_backslash p.fields hfloat,
    ?_⟩
  rw [toLineProtocol_decomp p precision, String.data_append]
  exact List.getLast?_concat _

/-- The point refuting C3 as stated: its tag value ends with a backslash,
which `escapeKey` leaves unescaped, so the space separating the tag section
from the field section is itself escaped. -/
def c3CounterPoint : GoPoint :=
  ⟨"test", [⟨"id", "a\\"⟩], [⟨"f", .fInt64 1⟩], none⟩

/-- C3 counterexample: `ToLineProtocol` of a point with tag `id=a\`
(`\` the last character of the tag value) produces `test,id=a\ f=1i\n`, whose
section separator space is preceded by a backslash — by the spec's own
escaping convention it is escaped, so the claim fails at this point. -/
theorem toLineProtocol_shape_counterexample :
    toLineProtocol c3CounterPoint 1 = "test,id=a\\ f=1i\n"
    ∧ ¬ c3Statement c3CounterPoint 1 := by
  constructor
  · decide
  · intro hclaim
    exact absurd (by decide : (tagSection c3CounterPoint).data.getLast?
      = some '\\') hclaim.2.2.1

/-- The point of spec scenario S2: `test,id=10 float64=80.1234567` at
`Unix(60, 123456789)`. -/
def s2Point : GoPoint :=
  ⟨"test", [⟨"id", "10"⟩], [⟨"float64", .fFloat64 "80.1234567"⟩],
    some ⟨60, 123456789⟩⟩

/-- Witness for the amended C3 at scenario S2 with `ms` precision. -/
theorem toLineProtocol_shape_witness :
    c3Statement s2Point 1000000
    ∧ toLineProtocol s2Point 1000000 = "test,id=10 float64=80.1234567 60123\n" := by
  constructor
  · apply toLineProtocol_shape
    · right; right; left; rfl
    · intro tl htl
      have h1 : tl = ⟨"id", "10"⟩ := by
        simp [s2Point] at htl
        exact htl.symm
      subst h1
      decide
    · intro fl hfl r hr
      have h1 : fl = ⟨"float64", .fFloat64 "80.1234567"⟩ := by
        simp [s2Point] at hfl
        exact hfl.symm
      subst h1
      simp only at hr
      cases hr
      decide
  · decide

theorem escapeKeyL_sep_escaped :
    ∀ (l : List Char) (i : Nat),
      ((escapeKeyL l).get? i = some ' ' ∨ (escapeKeyL l).get? i = some ','
        ∨ (escapeKeyL l).get? i = some '=') →
      ∃ j : Nat, i = j + 1 ∧ (escapeKeyL l).get? j = some '\\' := by
  intro l
  induction l with
  | nil => intro i hsep; simp [escapeKeyL] at hsep
  | cons c rest ih =>
    intro i hsep
    by_cases hc : c = ' ' ∨ c = ',' ∨ c = '='
    · rw [show escapeKeyL (c :: rest)
          = '\\' :: c :: escapeKeyL rest by rw [escapeKeyL, if_pos hc]] at hsep ⊢
      match i with
      | 0 =>
        exfalso
        simp only [List.get?_cons_zero] at hsep
        rcases hsep with h | h | h <;> simp at h
      | 1 => exact ⟨0, rfl, rfl⟩
      | (k + 2) =>
        simp only [List.get?_cons_succ] at hsep
        obtain ⟨j, hij, hbs⟩ := ih k hsep
        exact ⟨j + 2, by omega, by simpa only [List.get?_cons_succ] using hbs⟩
    · rw [show escapeKeyL (c :: rest)
          = c :: escapeKeyL rest by rw [escapeKeyL, if_neg hc]] at hsep ⊢
      match i with
      | 0 =>
        exfalso
        simp only [List.get?_cons_zero, Option.some_inj] at hsep
        exact hc hsep
      | (k + 1) =>
        simp only [List.get?_cons_succ] at hsep
        obtain ⟨j, hij, hbs⟩ := ih k hsep
        exact ⟨j + 1, by omega, by simpa only [List.get?_cons_succ] using hbs⟩

theorem escapeValueL_flatMap (l : List Char) :
    escapeValueL l
      = l.flatMap (fun c => if c = '\\' ∨ c = '"' then ['\\', c] else [c]) := by
  induction l with
  | nil => rfl
  | cons c rest ih =>
    by_cases hc : c = '\\' ∨ c = '"'
    · rw [show escapeValueL (c :: rest)
          = '\\' :: c :: escapeValueL rest by rw [escapeValueL, if_pos hc]]
      simp [hc, ih]
    · rw [show escapeValueL (c :: rest)
          = c :: escapeValueL rest by rw [escapeValueL, if_neg hc]]
      simp [hc, ih]

/-- C6.  Escaping and type markers of `ToLineProtocol`:
(1) in `escapeKey` output (used for the measurement, tag keys, tag values and
field keys) every space, comma and equals sign sits right after a backslash;
(2) `escapeValue` (used inside string field values) maps each backslash and
double quote of the value to a backslash followed by that character, all other
characters unchanged;
(3) the rendered field values carry the type markers: `int64` gets an `i`
suffix, `uint64` a `u` suffix, strings are wrapped in double quotes, booleans
and floats are bare;
(4) the serialized line is built from exactly these escaped sections. -/
theorem escaping_and_type_markers :
    (∀ (l : List Char) (i : Nat),
        ((escapeKeyL l).get? i = some ' ' ∨ (escapeKeyL l).get? i = some ','
          ∨ (escapeKeyL l).get? i = some '=') →
        ∃ j : Nat, i = j + 1 ∧ (escapeKeyL l).get? j = some '\\')
    ∧ (∀ l : List Char, escapeValueL l
        = l.flatMap (fun c => if c = '\\' ∨ c = '"' then ['\\', c] else [c]))
    ∧ (∀ n : Int, fieldValueText (.fInt64 n) = toString n ++ "i")
    ∧ (∀ n : Nat, fieldValueText (.fUInt64 n) = toString n ++ "u")
    ∧ (∀ s : String, fieldValueText (.fString s) = "\"" ++ escapeValue s ++ "\"")
    ∧ (∀ b : Bool, fieldValueText (.fBool b) = if b then "true" else "false")
    ∧ (∀ r : String, fieldValueText (.fFloat64 r) = r)
    ∧ (∀ (p : GoPoint) (precision : Int),
        toLineProtocol p precision
          = tagSection p ++ " " ++ fieldSection p
            ++ c3TimestampText precision p.timestamp ++ "\n") := by
  refine ⟨escapeKeyL_sep_escaped, escapeValueL_flatMap,
    fun n => rfl, fun n => rfl,
    fun s => String.append_empty _,
    fun b => ?_, fun r => String.append_empty r,
    toLineProtocol_decomp⟩
  cases b <;> rfl

/-- Witness for C6: the space of tag key `a b` is escaped in the output
(`escapeKey "a b" = a\ b`, the space at index 2 preceded by the backslash at
index 1). -/
theorem escaping_and_type_markers_witness :
    ∃ j : Nat, 2 = j + 1 ∧ (escapeKeyL ['a', ' ', 'b']).get? j = some '\\' :=
  escaping_and_type_markers.1 ['a', ' ', 'b'] 2 (by decide)

/-! ## `convertField`, `AddField`, `NewPoint` (`point.go`)

`GoFieldInput` models the Go `interface{}` values passed to `AddField` /
`NewPoint`: one constructor per arm of `convertField`'s type switch, plus
`gUnsupported` for every other dynamic type.  Externally-formatted carriers:
`gFloat64`/`gFloat32` carry the `%v` rendering, `gBytes` the `string(v)`
conversion, `gTime` the `v.Format(time.RFC3339Nano)` text, `gDuration` the
`v.String()` text. -/

inductive GoFieldInput where
  | gBool : Bool → GoFieldInput
  | gInt64 : Int → GoFieldInput
  | gString : String → GoFieldInput
  | gFloat64 : String → GoFieldInput
  | gInt : Int → GoFieldInput
  | gUInt : Nat → GoFieldInput
  | gUInt64 : Nat → GoFieldInput
  | gBytes : String → GoFieldInput
  | gInt32 : Int → GoFieldInput
  | gInt16 : Int → GoFieldInput
  | gInt8 : Int → GoFieldInput
  | gUInt32 : Nat → GoFieldInput
  | gUInt16 : Nat → GoFieldInput
  | gUInt8 : Nat → GoFieldInput
  | gFloat32 : String → GoFieldInput
  | gTime : String → GoFieldInput
  | gDuration : String → GoFieldInput
  | gUnsupported : String → GoFieldInput
deriving Repr, DecidableEq

/-- Outcome of a Go function that can panic. -/
inductive GoResult (α : Type) where
  | ok : α → GoResult α
  | panics : String → GoResult α
deriving Repr, DecidableEq

def GoResult.isOk {α : Type} : GoResult α → Bool
  | .ok _ => true
  | .panics _ => false

/-- `convertField` (`point.go` lines 138-171): normalizes supported dynamic
types (widening small integers, converting `[]byte`, `time.Time` and
`time.Duration` to strings) and panics with `"unsupported type"` on anything
else. -/
def convertField : GoFieldInput → GoResult LPFieldValue
  | .gBool b => .ok (.fBool b)
  | .gInt64 n => .ok (.fInt64 n)
  | .gString s => .ok (.fString s)
  | .gFloat64 r => .ok (.fFloat64 r)
  | .gInt n => .ok (.fInt64 n)
  | .gUInt n => .ok (.fUInt64 n)
  | .gUInt64 n => .ok (.fUInt64 n)
  | .gBytes s => .ok (.fString s)
  | .gInt32 n => .ok (.fInt64 n)
  | .gInt16 n => .ok (.fInt64 n)
  | .gInt8 n => .ok (.fInt64 n)
  | .gUInt32 n => .ok (.fUInt64 n)
  | .gUInt16 n => .ok (.fUInt64 n)
  | .gUInt8 n => .ok (.fUInt64 n)
  | .gFloat32 r => .ok (.fFloat64 r)
  | .gTime s => .ok (.fString s)
  | .gDuration s => .ok (.fString s)
  | .gUnsupported _ => .panics "unsupported type"

def isUnsupportedInput : GoFieldInput → Bool
  | .gUnsupported _ => true
  | _ => false

/-- Result of `Point.AddField`. -/
inductive AddFieldResult where
  | ok : List LPField → AddFieldResult
  | replacedRaw : AddFieldResult
  | panics : String → AddFieldResult
deriving Repr, DecidableEq

/-- `Point.AddField` (`point.go` lines 64-72) on the field list.  When the key
already exists Go assigns the *raw* `interface{}` value to the existing entry
without calling `convertField`; that branch stores an unnormalized value and
is marked `replacedRaw` here.  A new key appends `convertField`'s result —
which panics on an unsupported type. -/
def addField (fields : List LPField) (k : String) (v : GoFieldInput) :
    AddFieldResult :=
  if fields.any (fun f => f.key = k) then .replacedRaw
  else
    match convertField v with
    | .ok cv => .ok (fields ++ [⟨k, cv⟩])
    | .panics msg => .panics msg

/-- The field loop of `NewPoint`: converts each value in iteration order
(Go iterates the `fields` map; the embedding fixes one order), propagating the
first panic.  `convertField` never returns Go `nil`, so the `continue` branch
is dead. -/
def convertAllFields : List (String × GoFieldInput) → GoResult (List LPField)
  | [] => .ok []
  | (k, v) :: rest =>
    match convertField v with
    | .panics m => .panics m
    | .ok cv =>
      match convertAllFields rest with
      | .panics m => .panics m
      | .ok fs => .ok (⟨k, cv⟩ :: fs)

/-- `NewPoint` (`point.go` lines 199-231): converts the fields, then sorts
fields and tags by key (`SortFields` / `SortTags`; keys are unique, so the
sort order is determined). -/
def newPoint (measurement : String) (tags : List LPTag)
    (fields : List (String × GoFieldInput)) (ts : Option GoTimeInstant) :
    GoResult GoPoint :=
  match convertAllFields fields with
  | .panics m => .panics m
  | .ok fs =>
    .ok { measurement := measurement,
          tags := tags.mergeSort (fun a b => a.key ≤ b.key),
          fields := fs.mergeSort (fun a b => a.key ≤ b.key),
          timestamp := ts }

/-- C7 counterexample: an unsupported field value makes `convertField` (and
with it `AddField` on a fresh key and `NewPoint`) panic with
`"unsupported type"`; no `Point` is produced and no error value is returned,
so the failure is not deferred to serialization. -/
theorem unsupported_field_panics_counterexample :
    convertField (.gUnsupported "complex128") = .panics "unsupported type"
    ∧ addField [] "f" (.gUnsupported "complex128") = .panics "unsupported type"
    ∧ (newPoint "m" [] [("f", .gUnsupported "complex128")] none).isOk = false
    ∧ newPoint "m" [] [("f", .gUnsupported "complex128")] none
        = .panics "unsupported type" := by
  refine ⟨rfl, ?_, ?_, ?_⟩ <;> decide

/-- C7 (amended).  A field value of a type outside the supported set causes a
runtime panic `"unsupported type"` raised inside `convertField` at the moment
the field is added (`AddField` with a new key, or `NewPoint`), not an error
reported at serialization time; every supported value is accepted. -/
theorem unsupported_field_panics (tname m k : String) (tags : List LPTag)
    (fields : List LPField) (rest : List (String × GoFieldInput))
    (ts : Option GoTimeInstant) :
    convertField (.gUnsupported tname) = .panics "unsupported type"
    ∧ ((∀ f ∈ fields, f.key ≠ k) →
        addField fields k (.gUnsupported tname) = .panics "unsupported type")
    ∧ newPoint m tags ((k, .gUnsupported tname) :: rest) ts
        = .panics "unsupported type"
    ∧ (∀ v : GoFieldInput, isUnsupportedInput v = false →
        ∃ cv, convertField v = .ok cv) := by
  refine ⟨rfl, ?_, rfl, ?_⟩
  · intro hfresh
    have hany : fields.any (fun f => f.key = k) = false := by
      rw [List.any_eq_false]
      intro f hf
      simpa using hfresh f hf
    rw [addField, hany]
    simp [convertField]
  · intro v hv
    cases v <;> first
      | exact ⟨_, rfl⟩
      | simp [isUnsupportedInput] at hv

/-- Witness for the amended C7 at concrete inputs. -/
theorem unsupported_field_panics_witness :
    addField [⟨"g", .fInt64 1⟩] "f" (.gUnsupported "chan int")
        = .panics "unsupported type"
    ∧ (∃ cv, convertField (.gInt32 5) = .ok cv) := by
  have h := unsupported_field_panics "chan int" "m" "f" []
    [⟨"g", .fInt64 1⟩] [] none
  exact ⟨h.2.1 (by decide), h.2.2.2 (.gInt32 5) (by decide)⟩

/-! ## Streaming CSV decoder (`query.go`)

The CSV tokenizer and the standard-library value parsers are external: the
decoder consumes pre-tokenized rows (`List (List String)`), and
`strconv.ParseFloat`, `time.Parse`, `time.ParseDuration` and
`base64.StdEncoding.DecodeString` are a parameter bundle `GoStdParsers` whose
result types `F`, `D`, `T`, `B` are abstract.  `strconv.ParseInt/ParseUint`
(base 10, 64-bit) and the `bool` coercion are implemented concretely. -/

/-- `FluxColumn` (flux table column properties). -/
structure FluxColumn where
  index : Nat
  name : String
  dataType : String
  group : Bool
  defaultValue : String
deriving Repr, DecidableEq

/-- `newFluxColumn(index, dataType)`. -/
def newFluxColumn (index : Nat) (dataType : String) : FluxColumn :=
  { index := index, name := "", dataType := dataType, group := false,
    defaultValue := "" }

/-- `FluxTableMetadata`: 0-based table position and its columns. -/
structure FluxTableMetadata where
  position : Nat
  columns : List FluxColumn
deriving Repr, DecidableEq

def newFluxTableMetadata (position : Nat) : FluxTableMetadata :=
  { position := position, columns := [] }

/-- `FluxTableMetadata.Column(index)`: the column, or `nil` out of bounds. -/
def FluxTableMetadata.column (t : FluxTableMetadata) (i : Nat) :
    Option FluxColumn :=
  t.columns.get? i

/-- Applies `f` to column `i` when it exists, like the
`if q.table.Column(i) != nil { ... }` update loops of `Next`. -/
def FluxTableMetadata.updateColumn (t : FluxTableMetadata) (i : Nat)
    (f : FluxColumn → FluxColumn) : FluxTableMetadata :=
  { t with columns := t.columns.mapIdx (fun j c => if j = i then f c else c) }

/-- The external standard-library parsers used by `toValue`. -/
structure GoStdParsers (F D T B : Type) where
  parseFloat : String → Except String F
  parseRFC3339 : String → Except String T
  parseRFC3339Nano : String → Except String T
  parseDuration : String → Except String D
  base64Decode : String → Except String B

/-- A typed cell value as produced by `toValue`. -/
inductive FluxValue (F D T B : Type) where
  | vString : String → FluxValue F D T B
  | vTime : T → FluxValue F D T B
  | vDuration : D → FluxValue F D T B
  | vDouble : F → FluxValue F D T B
  | vBool : Bool → FluxValue F D T B
  | vLong : Int → FluxValue F D T B
  | vULong : Nat → FluxValue F D T B
  | vBytes : B → FluxValue F D T B
deriving DecidableEq

/-- Decimal digit run: `none` unless the list is a non-empty run of `0`-`9`. -/
def decDigits : List Char → Option Nat
  | [] => none
  | [c] => if '0' ≤ c ∧ c ≤ '9' then some (c.toNat - '0'.toNat) else none
  | c :: rest =>
    if '0' ≤ c ∧ c ≤ '9' then
      match decDigits rest with
      | some v =>
        some ((c.toNat - '0'.toNat) * 10 ^ rest.length + v)
      | none => none
    else none

/-- `strconv.ParseUint(s, 10, 64)`: a non-empty unsigned decimal below
`2^64`; no sign, no underscores.  Errors are collapsed to their kinds. -/
def goParseUint64 (s : String) : Except String Nat :=
  match decDigits s.data with
  | none => .error "invalid syntax"
  | some v => if v < 2 ^ 64 then .ok v else .error "value out of range"

/-- `strconv.ParseInt(s, 10, 64)`: optional sign, then a decimal run, with
the `int64` range check. -/
def goParseInt64 (s : String) : Except String Int :=
  match s.data with
  | [] => .error "invalid syntax"
  | c :: rest =>
    if c = '-' then
      match decDigits rest with
      | none => .error "invalid syntax"
      | some v => if v ≤ 2 ^ 63 then .ok (-(v : Int)) else .error "value out of range"
    else if c = '+' then
      match decDigits rest with
      | none => .error "invalid syntax"
      | some v => if v < 2 ^ 63 then .ok (v : Int) else .error "value out of range"
    else
      match decDigits (c :: rest) with
      | none => .error "invalid syntax"
      | some v => if v < 2 ^ 63 then .ok (v : Int) else .error "value out of range"

/-- The datatype constants of `query.go`. -/
def stringDatatype : String := "string"
def doubleDatatype : String := "double"
def boolDatatype : String := "bool"
def longDatatype : String := "long"
def uLongDatatype : String := "unsignedLong"
def durationDatatype : String := "duration"
def base64BinaryDataType : String := "base64Binary"
def timeDatatypeRFC : String := "dateTime:RFC3339"
def timeDatatypeRFCNano : String := "dateTime:RFC3339Nano"

/-- `stringTernary(a, b)`: `a` if non-empty, otherwise `b`. -/
def stringTernary (a b : String) : String := if a = "" then b else a

/-- `strings.ToLower` as used on the annotated-CSV cells (ASCII lowering;
the cells compared against `"false"` are ASCII). -/
def goToLower (s : String) : String := ⟨s.data.map Char.toLower⟩

/-- `toValue(s, t)` (`query.go` lines 330-356): dispatch on the declared data
type, in the source's case order. -/
def toValue {F D T B : Type} (P : GoStdParsers F D T B) (s t : String) :
    Except String (FluxValue F D T B) :=
  if t = stringDatatype then .ok (.vString s)
  else if t = timeDatatypeRFC then (P.parseRFC3339 s).map .vTime
  else if t = timeDatatypeRFCNano then (P.parseRFC3339Nano s).map .vTime
  else if t = durationDatatype then (P.parseDuration s).map .vDuration
  else if t = doubleDatatype then (P.parseFloat s).map .vDouble
  else if t = boolDatatype then
    if goToLower s = "false" then .ok (.vBool false) else .ok (.vBool true)
  else if t = longDatatype then (goParseInt64 s).map .vLong
  else if t = uLongDatatype then (goParseUint64 s).map .vULong
  else if t = base64BinaryDataType then (P.base64Decode s).map .vBytes
  else .error (s ++ " has unknown data type " ++ t)

/-- `FluxRecord`: the table position and the name-to-value map (modelled as
an insertion-ordered association list with replace-on-key). -/
structure FluxRecord (F D T B : Type) where
  table : Nat
  values : List (String × FluxValue F D T B)
deriving DecidableEq

/-- `values[name] = v` on the association list. -/
def mapInsert {α : Type} (m : List (String × α)) (k : String) (v : α) :
    List (String × α) :=
  if m.any (fun p => p.1 = k) then
    m.map (fun p => if p.1 = k then (k, v) else p)
  else m ++ [(k, v)]

/-- `QueryTableResult` (`query.go` lines 162-170): the remaining CSV rows
stand for the streamed response body; `closed` records whether the body has
been closed (the `closer` of `Next`, whose own error path is not modelled:
closing the body always succeeds here). -/
structure QueryTableResult (F D T B : Type) where
  rows : List (List String)
  tablePosition : Nat
  tableChanged : Bool
  table : Option FluxTableMetadata
  record : Option (FluxRecord F D T B)
  err : Option String
  closed : Bool

/-- The per-call parsing state of `Next`. -/
inductive ParsingState where
  | normal : ParsingState
  | nameRow : ParsingState
  | errorRow : ParsingState
deriving Repr, DecidableEq

/-- The data-row loop of `Next`: for each cell, when `Column(i)` exists,
coerce `stringTernary(cell, default)` by the declared type, stopping at the
first error. -/
def buildValues {F D T B : Type} (P : GoStdParsers F D T B)
    (tbl : FluxTableMetadata) :
    Nat → List String → List (String × FluxValue F D T B) →
    Except String (List (String × FluxValue F D T B))
  | _, [], acc => .ok acc
  | i, v :: vs, acc =>
    match tbl.column i with
    | none => buildValues P tbl (i + 1) vs acc
    | some col =>
      match toValue P (stringTernary v col.defaultValue) col.dataType with
      | .error m => .error m
      | .ok val => buildValues P tbl (i + 1) vs (mapInsert acc col.name val)

/-- The reference part of an in-band error message: `,{row[2]}` only when a
third cell exists and is non-empty (braces here denote interpolation). -/
def errorRowReference : List String → String
  | r :: _ => if 0 < r.length then "," ++ r else ""
  | [] => ""

/-- The `readRow` loop of `QueryTableResult.Next` (`query.go` lines 210-314).
The result is `none` only on the `nil`-table dereference panics of the
`#group`/`#default`/name-row branches (unreachable in well-formed streams);
otherwise the updated decoder and the boolean returned by `Next`. -/
def nextLoop {F D T B : Type} (P : GoStdParsers F D T B) :
    ParsingState → QueryTableResult F D T B → List (List String) →
    Option (QueryTableResult F D T B × Bool)
  | _, st, [] =>
    -- io.EOF: `q.err = nil`, the deferred closer closes the body
    some ({ st with rows := [], err := none, closed := true }, false)
  | ps, st, row :: rest =>
    match row with
    | c0 :: c1 :: crest =>
      if c0 = "" then
        match ps with
        | .errorRow =>
          -- message row after a name row whose second cell was "error"
          some ({ st with
                  rows := rest,
                  err := some (c1 ++ errorRowReference crest),
                  closed := true }, false)
        | .nameRow =>
          if c1 = "error" then nextLoop P .errorRow st rest
          else
            match st.table with
            | none => none
            | some tbl =>
              let tbl' := (List.range (c1 :: crest).length).foldl
                (fun t i => t.updateColumn i (fun c =>
                  { c with name := (c1 :: crest).getD i c.name })) tbl
              nextLoop P .normal { st with table := some tbl' } rest
        | .normal =>
          match st.table with
          | none =>
            some ({ st with
                    rows := rest,
                    err := some "parsing error, table definition not found",
                    closed := true }, false)
          | some tbl =>
            if (c1 :: crest).length ≠ tbl.columns.length then
              some ({ st with
                      rows := rest,
                      err := some ("parsing error, row has different number of columns than table: "
                        ++ toString (c1 :: crest).length ++ " vs "
                        ++ toString tbl.columns.length),
                      closed := true }, false)
            else
              match buildValues P tbl 0 (c1 :: crest) [] with
              | .error m =>
                some ({ st with
                        rows := rest, err := some m, closed := true }, false)
              | .ok vals =>
                -- successful data row: record set, closer disarmed
                some ({ st with
                        rows := rest, err := none,
                        record := some ⟨tbl.position, vals⟩ }, true)
      else if c0 = "#datatype" then
        let tbl : FluxTableMetadata :=
          { position := st.tablePosition,
            columns := (c1 :: crest).mapIdx (fun i d => newFluxColumn i d) }
        nextLoop P ps
          { st with
            table := some tbl,
            tablePosition := st.tablePosition + 1, tableChanged := true } rest
      else if c0 = "#group" then
        match st.table with
        | none => none
        | some tbl =>
          let tbl' := (List.range (c1 :: crest).length).foldl
            (fun t i => t.updateColumn i (fun c =>
              { c with group := (c1 :: crest).getD i "" = "true" })) tbl
          nextLoop P ps { st with table := some tbl' } rest
      else if c0 = "#default" then
        match st.table with
        | none => none
        | some tbl =>
          let tbl' := (List.range (c1 :: crest).length).foldl
            (fun t i => t.updateColumn i (fun c =>
              { c with defaultValue := (c1 :: crest).getD i c.defaultValue })) tbl
          nextLoop P .nameRow { st with table := some tbl' } rest
      else
        -- unknown non-empty first cell: the switch has no default case,
        -- control falls through to `return true`
        some ({ st with rows := rest, err := none }, true)
    | _ =>
      -- `len(row) <= 1`: skip the row
      nextLoop P ps st rest

/-- `QueryTableResult.Next`: resets `tableChanged` and runs the row loop in
the `Normal` state. -/
def next {F D T B : Type} (P : GoStdParsers F D T B)
    (st : QueryTableResult F D T B) :
    Option (QueryTableResult F D T B × Bool) :=
  nextLoop P .normal { st with tableChanged := false } st.rows

/-- A concrete instantiation of the external parser bundle, used to evaluate
the embedding at concrete inputs. -/
def trivialParsers : GoStdParsers Unit Unit Unit Unit where
  parseFloat := fun _ => .ok ()
  parseRFC3339 := fun _ => .ok ()
  parseRFC3339Nano := fun _ => .ok ()
  parseDuration := fun _ => .ok ()
  base64Decode := fun _ => .ok ()

/-- C8 counterexample: the decoder's datatype constant for booleans is
`"bool"` only, so the declared type `"boolean"` — which the claim says
coerces to a bool — falls through to the unknown-data-type error. -/
theorem toValue_boolean_unknown_counterexample :
    toValue trivialParsers "true" "boolean"
        = .error "true has unknown data type boolean"
    ∧ toValue trivialParsers "true" "boolean" ≠ .ok (.vBool true)
    ∧ toValue trivialParsers "true" "boolean" ≠ .ok (.vBool false)
    ∧ toValue trivialParsers "true" "bool" = .ok (.vBool true) := by
  refine ⟨?_, ?_, ?_, ?_⟩ <;>
    simp [toValue, stringDatatype, timeDatatypeRFC, timeDatatypeRFCNano,
      durationDatatype, doubleDatatype, boolDatatype, longDatatype,
      uLongDatatype, base64BinaryDataType, goToLower]

/-- C8 (amended).  Cell coercion by declared data type: an empty cell is
replaced by the column's default before coercion (`stringTernary`, and the
data-row loop coerces the default for an empty cell); `string` yields the
cell itself; `double`, `duration`, `dateTime:RFC3339`,
`dateTime:RFC3339Nano` and `base64Binary` dispatch to the standard-library
parsers; `bool` yields `false` exactly when the lowered cell is `"false"`
and `true` otherwise; `long`/`unsignedLong` parse signed/unsigned 64-bit
decimals; every other declared type — including `"boolean"`, contrary to the
claim — yields the "unknown data type" error. -/
theorem toValue_coercion {F D T B : Type} (P : GoStdParsers F D T B)
    (cell defVal s t : String) :
    (cell = "" → stringTernary cell defVal = defVal)
    ∧ (cell ≠ "" → stringTernary cell defVal = cell)
    ∧ (∀ (tbl : FluxTableMetadata) (i : Nat) (col : FluxColumn)
        (vs : List String) (acc : List (String × FluxValue F D T B)),
        tbl.column i = some col →
        buildValues P tbl i ("" :: vs) acc
          = match toValue P col.defaultValue col.dataType with
            | .error m => .error m
            | .ok val => buildValues P tbl (i + 1) vs (mapInsert acc col.name val))
    ∧ toValue P s stringDatatype = .ok (.vString s)
    ∧ toValue P s doubleDatatype = (P.parseFloat s).map .vDouble
    ∧ (goToLower s = "false" → toValue P s boolDatatype = .ok (.vBool false))
    ∧ (goToLower s ≠ "false" → toValue P s boolDatatype = .ok (.vBool true))
    ∧ toValue P s longDatatype = (goParseInt64 s).map .vLong
    ∧ toValue P s uLongDatatype = (goParseUint64 s).map .vULong
    ∧ toValue P s durationDatatype = (P.parseDuration s).map .vDuration
    ∧ toValue P s timeDatatypeRFC = (P.parseRFC3339 s).map .vTime
    ∧ toValue P s timeDatatypeRFCNano = (P.parseRFC3339Nano s).map .vTime
    ∧ toValue P s base64BinaryDataType = (P.base64Decode s).map .vBytes
    ∧ toValue P s "boolean" = .error (s ++ " has unknown data type boolean")
    ∧ (t ∉ [stringDatatype, doubleDatatype, boolDatatype, longDatatype,
          uLongDatatype, durationDatatype, timeDatatypeRFC,
          timeDatatypeRFCNano, base64BinaryDataType] →
        toValue P s t = .error (s ++ " has unknown data type " ++ t)) := by
  refine ⟨fun h => by simp [stringTernary, h],
    fun h => by simp [stringTernary, h],
    ?_, ?_, ?_, ?_, ?_, ?_, ?_, ?_, ?_, ?_, ?_, ?_, ?_⟩
  · intro tbl i col vs acc hcol
    rw [buildValues, hcol]
    rfl
  · simp [toValue]
  · simp [toValue, doubleDatatype, stringDatatype, timeDatatypeRFC,
      timeDatatypeRFCNano, durationDatatype]
  · intro h
    simp [toValue, boolDatatype, stringDatatype, timeDatatypeRFC,
      timeDatatypeRFCNano, durationDatatype, doubleDatatype, h]
  · intro h
    simp [toValue, boolDatatype, stringDatatype, timeDatatypeRFC,
      timeDatatypeRFCNano, durationDatatype, doubleDatatype, h]
  · simp [toValue, longDatatype, stringDatatype, timeDatatypeRFC,
      timeDatatypeRFCNano, durationDatatype, doubleDatatype, boolDatatype]
  · simp [toValue, uLongDatatype, stringDatatype, timeDatatypeRFC,
      timeDatatypeRFCNano, durationDatatype, doubleDatatype, boolDatatype,
      longDatatype]
  · simp [toValue, durationDatatype, stringDatatype, timeDatatypeRFC,
      timeDatatypeRFCNano]
  · simp [toValue, timeDatatypeRFC, stringDatatype]
  · simp [toValue, timeDatatypeRFCNano, stringDatatype, timeDatatypeRFC]
  · simp [toValue, base64BinaryDataType, stringDatatype, timeDatatypeRFC,
      timeDatatypeRFCNano, durationDatatype, doubleDatatype, boolDatatype,
      longDatatype, uLongDatatype]
  · simp [toValue, stringDatatype, timeDatatypeRFC, timeDatatypeRFCNano,
      durationDatatype, doubleDatatype, boolDatatype, longDatatype,
      uLongDatatype, base64BinaryDataType, String.append_assoc]
  · intro hne
    simp only [List.mem_cons, List.not_mem_nil, or_false, not_or] at hne
    obtain ⟨h1, h2, h3, h4, h5, h6, h7, h8, h9⟩ := hne
    simp [toValue, h1, h2, h3, h4, h5, h6, h7, h8, h9]

/-- Witness for the amended C8 at concrete cells. -/
theorem toValue_coercion_witness :
    stringTernary "" "dflt" = "dflt"
    ∧ toValue trivialParsers "FaLsE" "bool" = .ok (.vBool false)
    ∧ toValue trivialParsers "yes" "bool" = .ok (.vBool true)
    ∧ toValue trivialParsers "-42" "long" = .ok (.vLong (-42))
    ∧ toValue trivialParsers "x" "year" = .error "x has unknown data type year" := by
  have h := toValue_coercion trivialParsers "" "dflt" "FaLsE" "year"
  have h2 := toValue_coercion trivialParsers "" "dflt" "yes" "year"
  have h3 := toValue_coercion trivialParsers "" "dflt" "-42" "year"
  have h4 := toValue_coercion trivialParsers "" "dflt" "x" "year"
  refine ⟨h.1 rfl, ?_, ?_, ?_, ?_⟩
  · rw [show ("bool" : String) = boolDatatype from rfl]
    exact h.2.2.2.2.2.1 (by decide)
  · rw [show ("bool" : String) = boolDatatype from rfl]
    exact h2.2.2.2.2.2.2.1 (by decide)
  · rw [show ("long" : String) = longDatatype from rfl]
    rw [h3.2.2.2.2.2.2.2.1]
    rfl
  · exact h4.2.2.2.2.2.2.2.2.2.2.2.2.2.2 (by decide)

/-- C9.  After a `#default` row and a name row whose second cell is
`"error"`, reading the following row returns `false`, sets the error to the
message cell followed — only when the reference cell is non-empty — by a
comma and the reference cell, and closes the stream. -/
theorem error_row_emits_message {F D T B : Type} (P : GoStdParsers F D T B)
    (st : QueryTableResult F D T B) (tbl : FluxTableMetadata)
    (d1 msg : String) (drest nrest erest : List String)
    (rest : List (List String))
    (htbl : st.table = some tbl)
    (hrows : st.rows = ("#default" :: d1 :: drest)
        :: ("" :: "error" :: nrest) :: ("" :: msg :: erest) :: rest) :
    (next P st).map (fun r => (r.2, r.1.err, r.1.closed))
      = some (false, some (msg ++ errorRowReference erest), true) := by
  obtain ⟨rows, tp, tc, table, record, err, closed⟩ := st
  simp only at htbl hrows
  subst htbl hrows
  simp [next, nextLoop]

/-- The scenario-S6 decoder state: annotations already read up to the
`#default` row, two string columns. -/
def s6State : QueryTableResult Unit Unit Unit Unit :=
  { rows := [["#default", "", ""], ["", "error", "reference"],
      ["", "failed to create physical plan", "897"]],
    tablePosition := 1,
    tableChanged := true,
    table := some ⟨0, [newFluxColumn 0 "string", newFluxColumn 1 "string"]⟩,
    record := none,
    err := none,
    closed := false }

/-- Witness for C9 at scenario S6: `Next` returns `false` and the error is
the message joined with `,897`. -/
theorem error_row_emits_message_witness :
    (next trivialParsers s6State).map (fun r => (r.2, r.1.err, r.1.closed))
      = some (false, some "failed to create physical plan,897", true) := by
  have h := error_row_emits_message trivialParsers s6State
    ⟨0, [newFluxColumn 0 "string", newFluxColumn 1 "string"]⟩
    "" "failed to create physical plan" [""] ["reference"] ["897"] []
    rfl rfl
  rw [h]
  decide

/-- C10.  A data row (first cell empty, more than one cell) read in the
normal state before any `#datatype` annotation has established a table makes
`Next` return `false` with the error "parsing error, table definition not
found", leaving the record untouched. -/
theorem missing_table_definition {F D T B : Type} (P : GoStdParsers F D T B)
    (st : QueryTableResult F D T B) (c : String) (cs : List String)
    (rest : List (List String))
    (htbl : st.table = none)
    (hrows : st.rows = ("" :: c :: cs) :: rest) :
    (next P st).map (fun r => (r.2, r.1.err, r.1.record))
      = some (false, some "parsing error, table definition not found",
          st.record) := by
  obtain ⟨rows, tp, tc, table, record, err, closed⟩ := st
  simp only at htbl hrows ⊢
  subst htbl hrows
  simp [next, nextLoop]

/-- Witness for C10: a lone data row with no preceding annotations. -/
theorem missing_table_definition_witness :
    (next trivialParsers
        { rows := [["", "1.4", "0"]], tablePosition := 0, tableChanged := false,
          table := none, record := none, err := none, closed := false }).map
        (fun r => (r.2, r.1.err, r.1.record))
      = some (false, some "parsing error, table definition not found", none) := by
  have h := missing_table_definition trivialParsers
    { rows := [["", "1.4", "0"]], tablePosition := 0, tableChanged := false,
      table := none, record := none, err := none, closed := false }
    "1.4" ["0"] [] rfl rfl
  rw [h]

end InfluxGo
